import Mathlib

/-!
Verification of the keyword-spotter audio pipeline
(`audio_recorder.py`, `model.py`) against its natural-language
specification.  The Python source is shallowly embedded: raw audio
samples and timestamps are rationals, the bounded `queue.Queue` is an
explicit list-backed structure, and the stateful loops become explicit
state-passing functions.  Where the source relies on IEEE-754 double
arithmetic in a way that changes integer results (the spectrogram
timing computations), binary64 rounding is modelled exactly on
rationals.
-/

namespace KeywordSpotter

/-! ## Bounded raw-audio queue (`audio_recorder.AudioRecorder`) -/

/-- One element of the raw audio queue: the samples of one hardware
callback chunk together with its capture timestamp.  Mirrors the
`(in_data, time.time())` pairs stored by `_enqueue_raw_audio`. -/
structure RawChunk where
  samples : List ℚ
  timestamp : ℚ
  deriving DecidableEq, Inhabited

/-- Source: `AudioRecorder.frames_per_chunk = 1024`. -/
def framesPerChunk : ℕ := 1024

/-- Source: `AudioRecorder.max_queue_chunks = 1200`. -/
def maxQueueChunks : ℕ := 1200

/-- Source: `AudioRecorder.timeout_factor = 4`. -/
def timeoutFactor : ℕ := 4

/-- The `queue.Queue(self.max_queue_chunks)` created in
`AudioRecorder.__init__`: a FIFO with a hard capacity.  The head of
`items` is the oldest chunk. -/
structure RawAudioQueue where
  capacity : ℕ
  items : List RawChunk

/-- The queue as built by `AudioRecorder.__init__`. -/
def initQueue : RawAudioQueue := { capacity := maxQueueChunks, items := [] }

/-- Source: `AudioRecorder._enqueue_raw_audio`: a non-blocking
`put(..., block=False)`; when the queue is full, `queue.Full` is caught
and `TimeoutError("Raw audio buffer full.")` is raised.  The error case
is the raised exception; the queue is left unchanged by it. -/
def enqueueRawAudio (q : RawAudioQueue) (c : RawChunk) : Except String RawAudioQueue :=
  if q.items.length < q.capacity then
    .ok { q with items := q.items ++ [c] }
  else
    .error "Raw audio buffer full."

/-- A blocking `Queue.get(timeout=...)`, which returns the oldest chunk;
`none` models the `queue.Empty` timeout (no chunk became available). -/
def dequeueChunk (q : RawAudioQueue) : Option (RawChunk × RawAudioQueue) :=
  match q.items with
  | [] => none
  | c :: rest => some (c, { q with items := rest })

/-- One producer/consumer interaction with the queue. -/
inductive QueueOp where
  | enq (c : RawChunk)
  | deq

/-- Effect of one operation on the queue.  A failed enqueue (the raised
`TimeoutError`) leaves the queue unchanged; a dequeue of an empty queue
(a timeout) also leaves it unchanged. -/
def stepOp (q : RawAudioQueue) : QueueOp → RawAudioQueue
  | .enq c =>
      match enqueueRawAudio q c with
      | .ok q' => q'
      | .error _ => q
  | .deq =>
      match dequeueChunk q with
      | some (_, q') => q'
      | none => q

/-- Run a whole sequence of enqueues and dequeues. -/
def runOps (q : RawAudioQueue) (ops : List QueueOp) : RawAudioQueue :=
  ops.foldl stepOp q

/-! ## Recorder (`AudioRecorder.get_audio`) -/

/-- The recorder configuration fixed at `AudioRecorder.__init__`:
the raw capture rate and the decimation factor. -/
structure AudioRecorder where
  rawRate : ℕ
  downsample : ℕ

/-- Source: `AudioRecorder._chunk_duration_seconds =
frames_per_chunk / raw_audio_sample_rate_hz`. -/
def chunkDurationSeconds (r : AudioRecorder) : ℚ :=
  (framesPerChunk : ℚ) / (r.rawRate : ℚ)

/-- The per-dequeue timeout used by `get_audio`:
`timeout = self.timeout_factor * self._chunk_duration_seconds`. -/
def timeoutSeconds (r : AudioRecorder) : ℚ :=
  (timeoutFactor : ℚ) * chunkDurationSeconds r

/-- Source: `num_audio_chunks` as computed by `get_audio`:
`int(math.ceil(num_audio_frames * downsample / frames_per_chunk))`,
then raised to 1 if smaller.  The float division by the power of two
1024 and the ceiling are exact in binary64 for all realizable sizes, so
the natural-number ceiling division is a faithful model. -/
def numAudioChunks (r : AudioRecorder) (numAudioFrames : ℕ) : ℕ :=
  let k := (numAudioFrames * r.downsample + (framesPerChunk - 1)) / framesPerChunk
  if k < 1 then 1 else k

/-- Python's `xs[::k]` stride selection: every `k`-th element starting
at index 0 (for `k ≥ 1`). -/
def everyNth : List ℚ → ℕ → List ℚ
  | [], _ => []
  | x :: xs, k => x :: everyNth (xs.drop (k - 1)) k
termination_by l _ => l.length
decreasing_by simp; omega

/-- Source: `AudioRecorder.get_audio(num_audio_frames)`.  The available chunk
backlog `avail` stands for everything the producer will deliver within
the dequeue timeouts; if fewer than the needed number of chunks are
available, some dequeue raises `queue.Empty` and the whole call is
aborted with `TimeoutError("Audio capture timed out...")` — no partial
result.  On success it returns
`(audio * 0.5, timestamps[0], timestamps[-1])` and the undequeued rest
of the backlog. -/
def getAudio (r : AudioRecorder) (avail : List RawChunk) (numAudioFrames : ℕ) :
    Except String (List ℚ × ℚ × ℚ × List RawChunk) :=
  let k := numAudioChunks r numAudioFrames
  if k ≤ avail.length then
    let chunks := avail.take k
    let raw := (chunks.map RawChunk.samples).flatten
    let audio := if r.downsample ≠ 1 then everyNth raw r.downsample else raw
    .ok (audio.map (· * (1 / 2)),
         (chunks.headD default).timestamp,
         (chunks.getLastD default).timestamp,
         avail.drop k)
  else
    .error "Audio capture timed out."

/-! ## Feature extractor (`model.Uint8LogMelFeatureExtractor`) -/

/-- Source: `self.num_mel_bins = 32`. -/
def numMelBins : ℕ := 32

/-- Source: `self.frame_length_spectra = 198`. -/
def frameLengthSpectra : ℕ := 198

/-- Source: `self._norm_factor = 3`. -/
def normFactor : ℚ := 3

/-- A spectrogram matrix: a list of spectral rows, each row holding one
value per mel bin. -/
abbrev Matrix := List (List ℚ)

/-- Column `j` of a matrix, as read by the axis-0 numpy reductions. -/
def colList (m : Matrix) (j : ℕ) : List ℚ :=
  m.map (fun row => row.getD j 0)

/-- Source: `np.mean(spectrogram, axis=0)` at column `j`. -/
def colMean (m : Matrix) (j : ℕ) : ℚ :=
  (colList m j).sum / (m.length : ℚ)

/-- The population variance of column `j` (the square of
`np.std(spectrogram, axis=0)`, which uses `ddof=0`). -/
def colVariance (m : Matrix) (j : ℕ) : ℚ :=
  ((colList m j).map (fun x => (x - colMean m j) ^ 2)).sum / (m.length : ℚ)

/-- Source: `np.maximum(0, np.minimum(255, x)).astype(np.uint8)` on one entry:
clip to `[0, 255]`, then truncate to an unsigned 8-bit integer (for a
non-negative value the cast truncation is the floor). -/
def toUint8 (x : ℚ) : ℕ :=
  (Rat.floor (max 0 (min 255 x))).toNat

/-- Source: `spectrogram -= np.mean(spectrogram, axis=0)` of
`get_next_spectrogram`: subtract the per-column mean from every
entry. -/
def centeredMatrix (m : Matrix) : Matrix :=
  m.map (fun row => row.mapIdx (fun j x => x - colMean m j))

/-- The normalization/quantization tail of `get_next_spectrogram`:
subtract the per-column mean, and since `self._norm_factor` (= 3) is
truthy, divide by `norm_factor * np.std(·, axis=0)` of the centered
matrix, add 1, multiply by 127.5; finally clip to `[0, 255]` and cast
to `uint8`.  `np.std` returns an irrational square root in general, so
the standard deviations enter as an argument `std`; the theorems pin
`std j` down as the exact non-negative square root of the centered
column variance. -/
def normalizeQuantize (m : Matrix) (std : ℕ → ℚ) : List (List ℕ) :=
  let centered := centeredMatrix m
  let scaled :=
    if normFactor = 0 then centered
    else centered.map (fun row =>
      row.mapIdx (fun j y => (y / (normFactor * std j) + 1) * (255 / 2)))
  scaled.map (fun row => row.map toUint8)

/-- The mutable state of `Uint8LogMelFeatureExtractor` that
`get_next_spectrogram` touches: the configured `frame_hop_spectra` and
the rolling `self._spectrogram` buffer. -/
structure FeatureExtractorState where
  hop : ℕ
  spectrogram : Matrix

/-- Source: `get_next_spectrogram`:
`self._spectrogram[:-hop] = self._spectrogram[hop:]`,
`self._spectrogram[-hop:] = self._get_next_spectra(...)` — i.e. the
buffer becomes `drop hop ++ newRows` — then a `.copy()` of the buffer
is normalized, quantized and returned.  The new spectral rows produced
by `_get_next_spectra` (which calls the external `mel_features`
module) enter as the argument `newRows`; by its `assert` it has
exactly `hop` rows.  Returns the quantized snapshot together with the
post-call internal state. -/
def getNextSpectrogram (st : FeatureExtractorState) (newRows : Matrix) (std : ℕ → ℚ) :
    List (List ℕ) × FeatureExtractorState :=
  let shifted := st.spectrogram.drop st.hop ++ newRows
  (normalizeQuantize shifted std, { st with spectrogram := shifted })

/-! ### IEEE value model for the zero-variance edge case

The rational model above cannot express what numpy actually does when a
column's standard deviation is exactly 0: the element-wise division
`0.0 / 0.0` yields IEEE NaN (numpy emits a `RuntimeWarning`, it does
not raise), NaN propagates through `np.minimum`/`np.maximum`, and
casting NaN with `.astype(np.uint8)` is undefined behaviour.  `FVal`
makes the NaN explicit. -/

inductive FVal where
  | nan
  | val (q : ℚ)
  deriving DecidableEq

def FVal.add : FVal → FVal → FVal
  | .val a, .val b => .val (a + b)
  | _, _ => .nan

def FVal.sub : FVal → FVal → FVal
  | .val a, .val b => .val (a - b)
  | _, _ => .nan

def FVal.mul : FVal → FVal → FVal
  | .val a, .val b => .val (a * b)
  | _, _ => .nan

/-- IEEE division: a finite value divided by 0 (here `0/0`, since the
numerator is a centered constant column) is NaN. -/
def FVal.div : FVal → FVal → FVal
  | .val a, .val b => if b = 0 then .nan else .val (a / b)
  | _, _ => .nan

/-- Source: `np.minimum(255, x)`: NaN propagates. -/
def FVal.min255 : FVal → FVal
  | .val a => .val (min 255 a)
  | .nan => .nan

/-- Source: `np.maximum(0, x)`: NaN propagates. -/
def FVal.max0 : FVal → FVal
  | .val a => .val (max 0 a)
  | .nan => .nan

/-- The value fed to `.astype(np.uint8)` for one entry of a centered
column whose standard deviation is `std`: the literal sequence of
operations `y / (3 * std)`, `+ 1`, `* 127.5`, `np.minimum 255`,
`np.maximum 0` from `get_next_spectrogram`, in IEEE semantics. -/
def normalizePreCast (y : FVal) (std : FVal) : FVal :=
  FVal.max0 (FVal.min255 (FVal.mul (FVal.add (FVal.div y (FVal.mul (.val normFactor) std)) (.val 1)) (.val (255 / 2))))

/-! ## Binary64 arithmetic for the spectrogram timing computation

`_get_next_spectra` computes its sample counts with Python floats:
`int(np.ceil((0.025 + (n - 1) * 0.010) * rate))` and
`int((0.025 - 0.010) * rate)`.  The decimal literals are not exact
binary64 values, and the rounding changes the integer results (at the
default `n = 33`, rate 16000, the product is `5520.000000000001`, so
the ceiling is 5521, not 5520).  Doubles are modelled as exact
fractions of naturals (every positive double is one), and each
operation rounds the exact fraction result to the nearest binary64
value (round-to-nearest, ties-to-even), exactly as IEEE 754 demands
for the positive normal magnitudes used here (all far from overflow,
underflow and the subnormal range). -/

/-- A non-negative value as an exact fraction `num / den`
(`den` positive by construction). -/
abbrev Frac := ℕ × ℕ

/-- Computes ⌊log₂ n⌋ by repeated halving, with structural fuel (128 suffices
for every quantity in this model). -/
def log2fuel : ℕ → ℕ → ℕ
  | 0, _ => 0
  | fuel + 1, n => if 2 ≤ n then log2fuel fuel (n / 2) + 1 else 0

/-- Round the fraction `a / b` to the nearest binary64 double
(ties-to-even), returned as an exact fraction.  `E - 60` is
`⌊log₂ (a/b)⌋` (computed on the value shifted up by `2^60` so the
logarithm is over naturals), and the mantissa is the rounding of
`(a/b) · 2^(52 - (E - 60))`.  Valid for `2^(-60) ≤ a/b < 2^52`, which
covers every quantity in the timing formulas. -/
def fracRound (a b : ℕ) : Frac :=
  if a = 0 ∨ b = 0 then (0, 1)
  else
    let E := log2fuel 128 (a * 2 ^ 60 / b)
    let t := a * 2 ^ (112 - E)
    let f := t / b
    let r := t % b
    let f' :=
      if b < 2 * r then f + 1
      else if 2 * r < b then f
      else if f % 2 = 0 then f else f + 1
    (f', 2 ^ (112 - E))

/-- Double addition: round the exact sum. -/
def fadd (x y : Frac) : Frac := fracRound (x.1 * y.2 + y.1 * x.2) (x.2 * y.2)

/-- Double multiplication: round the exact product. -/
def fmul (x y : Frac) : Frac := fracRound (x.1 * y.1) (x.2 * y.2)

/-- Double subtraction: round the exact difference (the one use site
has a non-negative difference). -/
def fsub (x y : Frac) : Frac := fracRound (x.1 * y.2 - y.1 * x.2) (x.2 * y.2)

/-- Source: `self.spectrogram_window_length_seconds = 0.025` as the binary64
value the Python literal denotes. -/
def windowLengthSecsF : Frac := fracRound 25 1000

/-- Source: `self.spectrogram_hop_length_seconds = 0.010` as a binary64
value. -/
def hopLengthSecsF : Frac := fracRound 10 1000

/-- Source: `_frame_duration_seconds(num_spectra)` in double arithmetic:
`0.025 + (num_spectra - 1) * 0.010`.  The integer `num_spectra - 1` is
converted to double exactly (`fracRound (n - 1) 1`). -/
def frameDurationSecondsF (numSpectra : ℕ) : Frac :=
  fadd windowLengthSecsF (fmul (fracRound (numSpectra - 1) 1) hopLengthSecsF)

/-- Source: `required_num_samples = int(np.ceil(_frame_duration_seconds(n) *
rate))` of `_get_next_spectra`.  `np.ceil` of a double of this
magnitude and the `int` conversion are exact, so they become the exact
ceiling of the fraction. -/
def requiredNumSamples (rate numSpectra : ℕ) : ℕ :=
  let p := fmul (frameDurationSecondsF numSpectra) (fracRound rate 1)
  (p.1 + p.2 - 1) / p.2

/-- Source: `_spectrogram_underlap_samples(rate) = int((0.025 - 0.010) * rate)`:
double subtraction and product, truncated toward zero (the value is
positive, so truncation is the floor of the fraction). -/
def underlapSamples (rate : ℕ) : ℕ :=
  let p := fmul (fsub windowLengthSecsF hopLengthSecsF) (fracRound rate 1)
  p.1 / p.2

/-! ### Streaming state of `_get_next_spectra`

The calls consume one conceptual sample stream.  The state records the
index of the next stream sample the recorder will deliver (`cursor`)
and how many already-delivered samples sit in `self._audio_buffer`
(`bufLen`); the buffer contents are the stream slice
`[cursor - bufLen, cursor)`.  `get_audio(p)` returns whole decimated
chunks, i.e. `deliveredSamples ds p ≥ p` samples (see `getAudio`). -/

/-- Number of decimated samples `get_audio` returns for a request of
`p` samples at downsample factor `ds`: it dequeues
`numAudioChunks` chunks of `framesPerChunk` raw samples each and takes
every `ds`-th sample. -/
def deliveredSamples (ds p : ℕ) : ℕ :=
  let k := numAudioChunks { rawRate := 0, downsample := ds } p
  (k * framesPerChunk + (ds - 1)) / ds

structure ExtractorStream where
  cursor : ℕ
  bufLen : ℕ

/-- The stream index at which the spectrogram segment analysed by the
next `_get_next_spectra` call starts: the first carried-buffer
sample. -/
def segStart (s : ExtractorStream) : ℕ := s.cursor - s.bufLen

/-- One `_get_next_spectra(recorder, n)` call at output rate `rate`
with recorder decimation `ds`:
pull `required_num_samples - len(self._audio_buffer)` samples (the
recorder over-delivers to whole chunks), concatenate them after the
carried buffer, keep `audio_samples[required - underlap:]` as the new
buffer, and analyse `audio_samples[:required]`. -/
def nextSpectraStep (rate ds numSpectra : ℕ) (s : ExtractorStream) : ExtractorStream :=
  let required := requiredNumSamples rate numSpectra
  let pulled := deliveredSamples ds (required - s.bufLen)
  let total := s.bufLen + pulled
  { cursor := s.cursor + pulled,
    bufLen := total - (required - underlapSamples rate) }

/-- Modelled from the spec: the analysis-window grid of the external
`mel_features.log_mel_spectrogram` (not under `src/`), which frames
the analysed segment into windows of `window_length_secs` seconds
every `hop_length_secs` seconds — at 16 kHz, windows of 400 samples
every 160 samples.  `windowStarts s n` lists the stream indices at
which the `n` analysis windows of a segment starting at stream index
`s` begin. -/
def windowStarts (s n : ℕ) : List ℕ :=
  (List.range n).map (fun i => s + i * 160)

/-! ## Command table (`model.read_commands`) -/

/-- One parsed command-table record: the trigger key and the
confidence threshold, i.e. the `{'key': ..., 'conf': ...}` dict. -/
structure Command where
  key : String
  conf : ℚ
  deriving DecidableEq

/-- The value of a non-empty all-digit string. -/
def digitsVal (cs : List Char) : Option ℕ :=
  if cs ≠ [] ∧ cs.all Char.isDigit then
    some (cs.foldl (fun n c => 10 * n + (c.toNat - '0'.toNat)) 0)
  else none

/-- Python `str.split(sep)` for a single-character separator, over the
character list: fields between separators, keeping empty fields (so
`"a,b,"` splits into `["a", "b", ""]`, exactly like Python). -/
def splitOnChar (sep : Char) : List Char → List (List Char)
  | [] => [[]]
  | c :: rest =>
      let r := splitOnChar sep rest
      if c = sep then [] :: r
      else
        match r with
        | [] => [[c]]
        | f :: fs => (c :: f) :: fs

/-- Source: `float(confidence)` on the plain decimal literals used by command
tables (`"0.4"`, `"1"`, `"-0.2"`, ...), read exactly as a rational;
`none` models the `ValueError` on a malformed field. -/
def parseDecimal (s : String) : Option ℚ :=
  let cs := s.data
  let neg : Bool := match cs with | '-' :: _ => true | _ => false
  let body := if neg then cs.drop 1 else cs
  let signed : ℚ → ℚ := fun q => if neg then -q else q
  match splitOnChar '.' body with
  | [w] => (digitsVal w).map (fun n => signed n)
  | [w, f] =>
      match digitsVal w, digitsVal f with
      | some wn, some fn => some (signed ((wn : ℚ) + (fn : ℚ) / 10 ^ f.length))
      | _, _ => none
  | _ => none

/-- Python `str.rstrip()`: drop trailing whitespace. -/
def rstrip (s : String) : String :=
  ⟨(s.data.reverse.dropWhile Char.isWhitespace).reverse⟩

/-- A Python dict lookup `commands[label]` / membership test
`label in commands.keys()`, over the insertion-ordered bindings. -/
def lookupCmd (label : String) : List (String × Command) → Option Command
  | [] => none
  | (l, c) :: rest => if l = label then some c else lookupCmd label rest

/-- Python dict insertion `commands[command] = c`: replace an existing
binding in place, else append. -/
def insertCmd (table : List (String × Command)) (label : String) (c : Command) :
    List (String × Command) :=
  if (lookupCmd label table).isSome then
    table.map (fun p => if p.1 = label then (p.1, c) else p)
  else table ++ [(label, c)]

/-- One loop iteration of `read_commands`: the record starts with
`conf = 0.4`; if the confidence field is non-empty (truthy) and parses
to a float in `[0, 1]`, that value replaces the default.  A non-empty
unparseable field raises `ValueError` (`none`). -/
def readCommandFields (key confidence : String) : Option Command :=
  if confidence ≠ "" then
    match parseDecimal confidence with
    | none => none
    | some v => some { key := key, conf := if 0 ≤ v ∧ v ≤ 1 then v else 4 / 10 }
  else some { key := key, conf := 4 / 10 }

/-- Source: `model.read_commands`, over the list of raw file lines: each line
is right-stripped and split on `','` into exactly
`command, key, confidence` (any other field count raises, `none`). -/
def readCommands (lines : List String) : Option (List (String × Command)) :=
  lines.foldlM (fun table line =>
    match splitOnChar ',' (rstrip line).data with
    | [command, key, confidence] =>
        (readCommandFields ⟨key⟩ ⟨confidence⟩).map (insertCmd table ⟨command⟩)
    | _ => none) []

/-! ## Classification loop (`model.classify_audio`) -/

/-- Stable insertion of index `i` into an index list sorted by strictly
descending score. -/
def insertDesc (result : List ℚ) (i : ℕ) : List ℕ → List ℕ
  | [] => [i]
  | j :: js =>
      if result.getD j 0 < result.getD i 0 then i :: j :: js
      else j :: insertDesc result i js

/-- Source: `np.argsort(-result)`: indices of `result` ordered by descending
score.  (numpy's default sort is unstable on ties; the modelled runs
have no score ties, so the stable insertion sort is an exact model.) -/
def argsortDesc (result : List ℚ) : List ℕ :=
  (List.range result.length).foldl (fun acc i => insertDesc result i acc) []

/-- The detection candidate chosen by one `classify_audio` iteration:
`-1` when `result[0] ≥ negative_threshold`; otherwise scan the top-3
ranked indices in order and pick the first one that names a commanded
label, has nonzero index (`if top3[p]`), and beats that command's
confidence threshold (`result[top3[p]] > conf`).  An index outside
`labels` would raise `IndexError` in Python; the modelled runs keep
`labels` and `result` the same length, so that branch is unreachable
and is rendered as a skip.

The body of the `for p in range(3)` scan of `classify_audio`, for
one ranked index `i`: skip labels missing from the command table
(`continue`); otherwise, when the index is truthy (`if top3[p]`, i.e.
nonzero), the score beats the command's threshold and no detection was
chosen yet, record `i` as the detection. -/
def detectionStep (labels : List String) (commands : List (String × Command))
    (result : List ℚ) (detection : ℤ) (i : ℕ) : ℤ :=
  match labels.get? i with
  | none => detection
  | some label =>
      match lookupCmd label commands with
      | none => detection
      | some c =>
          if i ≠ 0 ∧ c.conf < result.getD i 0 ∧ detection < 0 then (i : ℤ)
          else detection

def candidateDetection (negThr : ℚ) (labels : List String)
    (commands : List (String × Command)) (result : List ℚ) : ℤ :=
  if result.getD 0 0 < negThr then
    ((argsortDesc result).take 3).foldl (detectionStep labels commands result) (-1)
  else (-1)

/-- Python list indexing `labels[i]`: non-negative indices from the
front, negative indices from the back (`labels[-1]` is the last
element); `none` models the out-of-range `IndexError`. -/
def pyGet (l : List String) (i : ℤ) : Option String :=
  if 0 ≤ i then l.get? i.toNat
  else if -i ≤ (l.length : ℤ) then l.get? (l.length - (-i).toNat) else none

/-- The dispatch tail of one `classify_audio` iteration, given the
frame's candidate `det` and the loop state `last` (`last_detection`):
if there was no candidate and the state is a positive label, print the
separator and reset the state to 0; then, when `labels[det]` (Python
indexing!) is a commanded label and `det` differs from the state,
dispatch that command's trigger key and store `det`.  Returns the
dispatched key, if any, and the new `last_detection`. -/
def dispatchStep (labels : List String) (commands : List (String × Command))
    (last det : ℤ) : Option String × ℤ :=
  let last1 := if det < 0 ∧ 0 < last then 0 else last
  match pyGet labels det with
  | none => (none, last1)
  | some label =>
      match lookupCmd label commands with
      | none => (none, last1)
      | some c => if det ≠ last1 then (some c.key, det) else (none, last1)

/-- The dispatch state machine over a whole sequence of per-frame
candidates, from initial state `last` (the loop starts at `-1`):
collects the trigger keys sent to `dectection_callback`, in order. -/
def runDispatch (labels : List String) (commands : List (String × Command))
    (last : ℤ) (dets : List ℤ) : List String × ℤ :=
  dets.foldl (fun acc det =>
    let r := dispatchStep labels commands acc.2 det
    (acc.1 ++ r.1.toList, r.2)) ([], last)

/-- One full frame of the classification loop: candidate selection
followed by the dispatch step. -/
def frameStep (negThr : ℚ) (labels : List String)
    (commands : List (String × Command)) (last : ℤ) (result : List ℚ) :
    Option String × ℤ :=
  dispatchStep labels commands last (candidateDetection negThr labels commands result)

/-! # Theorems -/

/-! ## C3: bounded audio queue -/

lemma stepOp_invariant (q : RawAudioQueue) (op : QueueOp)
    (h : q.items.length ≤ q.capacity) :
    (stepOp q op).items.length ≤ (stepOp q op).capacity ∧
      (stepOp q op).capacity = q.capacity := by
  obtain ⟨cap, items⟩ := q
  cases op with
  | enq c =>
      simp only [stepOp, enqueueRawAudio]
      by_cases hlt : items.length < cap
      · simp [hlt]
        omega
      · simp [hlt]
        exact h
  | deq =>
      simp only [stepOp, dequeueChunk]
      cases items with
      | nil => simp
      | cons c rest =>
          simp only [List.length_cons] at h
          simp
          omega

lemma runOps_invariant (ops : List QueueOp) :
    ∀ q : RawAudioQueue, q.items.length ≤ q.capacity →
      (runOps q ops).items.length ≤ (runOps q ops).capacity ∧
        (runOps q ops).capacity = q.capacity := by
  induction ops with
  | nil => exact fun q h => ⟨h, rfl⟩
  | cons op ops ih =>
      intro q h
      have h1 := stepOp_invariant q op h
      have h2 := ih (stepOp q op) h1.1
      exact ⟨h2.1, h2.2.trans h1.2⟩

/-- Claim **C3.**  For every sequence of producer enqueues and
consumer dequeues, the queue occupancy never exceeds the capacity
`max_queue_chunks = 1200`, and an enqueue issued on a full queue fails
with the `TimeoutError("Raw audio buffer full.")` — the model's
enqueue is a total function (it never blocks) and the error return is
the raised exception, so the chunk is neither blocked on nor silently
dropped. -/
theorem audio_queue_bounded :
    (∀ ops : List QueueOp, (runOps initQueue ops).items.length ≤ maxQueueChunks) ∧
    ∀ (q : RawAudioQueue) (c : RawChunk), q.capacity ≤ q.items.length →
      enqueueRawAudio q c = .error "Raw audio buffer full." := by
  constructor
  · intro ops
    have h := runOps_invariant ops initQueue (by simp [initQueue])
    have hc : (runOps initQueue ops).capacity = maxQueueChunks := h.2
    omega
  · intro q c h
    unfold enqueueRawAudio
    rw [if_neg (by omega)]

/-- Closed instance of `audio_queue_bounded`: a concrete run, and a
full queue of capacity 2 rejecting a third chunk. -/
theorem audio_queue_bounded_witness :
    (runOps initQueue [QueueOp.enq ⟨[0], 0⟩, QueueOp.deq]).items.length ≤ maxQueueChunks ∧
    enqueueRawAudio ⟨2, [⟨[0], 0⟩, ⟨[1], 0⟩]⟩ ⟨[2], 0⟩ = .error "Raw audio buffer full." :=
  ⟨audio_queue_bounded.1 _, audio_queue_bounded.2 _ _ (by decide)⟩

/-! ## C4/C5: `get_audio` -/

lemma everyNth_getElem? :
    ∀ (l : List ℚ) (k : ℕ), 1 ≤ k → ∀ i : ℕ, (everyNth l k)[i]? = l[i * k]? := by
  intro l k
  induction l, k using everyNth.induct with
  | case1 k =>
      intro _ i
      simp [everyNth]
  | case2 x xs k ih =>
      intro hk i
      cases i with
      | zero => simp [everyNth]
      | succ i =>
          have hidx : (i + 1) * k = (k - 1 + i * k) + 1 := by
            cases k with
            | zero => omega
            | succ k' => ring_nf; omega
          rw [everyNth, hidx, List.getElem?_cons_succ, List.getElem?_cons_succ,
            ih hk i, List.getElem?_drop]

/-- Claim **C4.**  `get_audio(minFrames)` dequeues exactly
`max(1, ceil(minFrames * downsample / chunkFrames))` chunks — the
chunk count is at least 1, covers `minFrames * downsample` raw
samples, and is minimal with that property — each dequeue uses
`timeout = timeout_factor * chunk_duration = 4 ×` the chunk duration,
and if the backlog cannot supply every dequeue within its timeout the
whole call fails with `TimeoutError("Audio capture timed out...")`,
returning no partial result; with a sufficient backlog it consumes
exactly that many chunks. -/
theorem get_audio_chunk_count (r : AudioRecorder) (avail : List RawChunk) (n : ℕ) :
    (1 ≤ numAudioChunks r n ∧
      n * r.downsample ≤ numAudioChunks r n * framesPerChunk ∧
      (∀ k', 1 ≤ k' → n * r.downsample ≤ k' * framesPerChunk →
        numAudioChunks r n ≤ k')) ∧
    timeoutSeconds r = 4 * chunkDurationSeconds r ∧
    (avail.length < numAudioChunks r n →
      getAudio r avail n = .error "Audio capture timed out.") ∧
    (numAudioChunks r n ≤ avail.length →
      ∃ out t0 t1, getAudio r avail n =
        .ok (out, t0, t1, avail.drop (numAudioChunks r n))) := by
  refine ⟨⟨?_, ?_, ?_⟩, ?_, ?_, ?_⟩
  · simp only [numAudioChunks]
    split <;> omega
  · simp only [numAudioChunks, framesPerChunk]
    split <;> omega
  · intro k' h1 h2
    simp only [numAudioChunks, framesPerChunk] at h2 ⊢
    split <;> omega
  · unfold timeoutSeconds timeoutFactor
    norm_num
  · intro h
    unfold getAudio
    rw [if_neg (by omega)]
  · intro h
    unfold getAudio
    rw [if_pos h]
    exact ⟨_, _, _, rfl⟩

/-- Closed instance of `get_audio_chunk_count`: the default 48 kHz,
downsample-3 recorder, requesting one frame from an empty backlog
(timeout) and from a one-chunk backlog (success). -/
theorem get_audio_chunk_count_witness :
    getAudio ⟨48000, 3⟩ [] 1 = .error "Audio capture timed out." ∧
    (∃ out t0 t1, getAudio ⟨48000, 3⟩ [⟨[0], 7⟩] 1 = .ok (out, t0, t1, [])) ∧
    numAudioChunks ⟨48000, 3⟩ 1 ≤ 3 := by
  have h0 := get_audio_chunk_count ⟨48000, 3⟩ [] 1
  have h1 := get_audio_chunk_count ⟨48000, 3⟩ [⟨[0], 7⟩] 1
  refine ⟨h0.2.2.1 (by decide), ?_, h0.1.2.2 3 (by decide) (by decide)⟩
  have := h1.2.2.2 (by decide)
  simpa using this

/-- Claim **C5.**  On success, `get_audio` concatenates the dequeued chunks
in FIFO order, decimates by exact stride selection — output sample `i`
is input sample `i * downsample`, no smoothing — multiplies the
amplitude by the fixed factor 0.5, and returns the result with the
first and last dequeued chunks' timestamps. -/
theorem get_audio_decimation (r : AudioRecorder) (avail : List RawChunk) (n : ℕ)
    (hds : 1 ≤ r.downsample)
    (hk : numAudioChunks r n ≤ avail.length) :
    ∃ out, getAudio r avail n =
        .ok (out,
             ((avail.take (numAudioChunks r n)).headD default).timestamp,
             ((avail.take (numAudioChunks r n)).getLastD default).timestamp,
             avail.drop (numAudioChunks r n)) ∧
      ∀ i : ℕ, out[i]? =
        (((avail.take (numAudioChunks r n)).map RawChunk.samples).flatten[i * r.downsample]?).map
          (· * (1 / 2)) := by
  simp only [getAudio, hk, if_true]
  refine ⟨_, rfl, ?_⟩
  intro i
  rw [List.getElem?_map]
  by_cases h1 : r.downsample ≠ 1
  · rw [if_pos h1, everyNth_getElem? _ _ hds]
  · push_neg at h1
    rw [if_neg (by simp [h1]), h1, Nat.mul_one]

/-- Closed instance of `get_audio_decimation`: downsample factor 3 on
a seven-sample chunk keeps samples 0, 3 and 6 and halves them. -/
theorem get_audio_decimation_witness :
    (1 : ℕ) ≤ (3 : ℕ) ∧
    ∃ out, getAudio ⟨48000, 3⟩ [⟨[0, 2, 4, 6, 8, 10, 12], 5⟩] 1 =
        .ok (out, 5, 5, []) ∧
      ∀ i : ℕ, out[i]? =
        (([([0, 2, 4, 6, 8, 10, 12] : List ℚ)].flatten[i * 3]?).map (· * (1 / 2))) := by
  refine ⟨by decide, ?_⟩
  have h := get_audio_decimation ⟨48000, 3⟩ [⟨[0, 2, 4, 6, 8, 10, 12], 5⟩] 1
    (by decide) (by decide)
  simpa using h

/-! ## C6: spectrogram frame shape and normalization formula -/

lemma toUint8_le (x : ℚ) : toUint8 x ≤ 255 := by
  unfold toUint8
  have h1 : max 0 (min 255 x) ≤ 255 := max_le (by norm_num) (min_le_left _ _)
  have h2 : Rat.floor (max 0 (min 255 x)) ≤ 255 := by
    by_contra hc
    push_neg at hc
    have : ((256 : ℤ) : ℚ) ≤ max 0 (min 255 x) := Rat.le_floor.mp (by omega)
    push_cast at this
    linarith
  omega

lemma normalizeQuantize_getElem? (m : Matrix) (std : ℕ → ℚ) (i : ℕ) :
    (normalizeQuantize m std)[i]? = (m[i]?).map (fun row =>
      ((row.mapIdx (fun j x => x - colMean m j)).mapIdx
        (fun j y => (y / (normFactor * std j) + 1) * (255 / 2))).map toUint8) := by
  simp only [normalizeQuantize, centeredMatrix]
  rw [if_neg (by norm_num [normFactor])]
  simp only [List.getElem?_map, Option.map_map]
  rfl

lemma normalizeQuantize_length (m : Matrix) (std : ℕ → ℚ) :
    (normalizeQuantize m std).length = m.length := by
  simp only [normalizeQuantize, centeredMatrix]
  rw [if_neg (by norm_num [normFactor])]
  simp

lemma normalizeQuantize_mem (m : Matrix) (std : ℕ → ℚ) :
    ∀ row ∈ normalizeQuantize m std, ∃ r ∈ m, row.length = r.length ∧
      ∀ v ∈ row, ∃ x, v = toUint8 x := by
  intro row hrow
  simp only [normalizeQuantize, centeredMatrix] at hrow
  rw [if_neg (by norm_num [normFactor])] at hrow
  obtain ⟨r1, hr1, rfl⟩ := List.mem_map.mp hrow
  obtain ⟨r2, hr2, rfl⟩ := List.mem_map.mp hr1
  obtain ⟨r3, hr3, rfl⟩ := List.mem_map.mp hr2
  refine ⟨r3, hr3, by simp, ?_⟩
  intro v hv
  obtain ⟨x, _, rfl⟩ := List.mem_map.mp hv
  exact ⟨x, rfl⟩

/-- Claim **C6.**  For every extractor configuration whose `num_frames_hop`
divides `frame_length_spectra` (the constructor check), a
`get_next_spectrogram` call returns a matrix of exactly
`frame_length_spectra × num_mel_bins` (198 × 32) rows and columns,
whose entries are 8-bit values clipped to `[0, 255]` and computed by
per-column mean subtraction, division by
`norm_factor * columnStdDev`, adding 1 and multiplying by 127.5; the
returned snapshot is separate from the internal rolling buffer, which
keeps only the raw shifted spectra, untouched by the
normalization.  `std j` is pinned down as the exact non-negative
square root of the centered column variance (and the generic case
`std j ≠ 0` is assumed; the zero-variance case is C7's subject). -/
theorem get_next_spectrogram_spec
    (hop : ℕ) (buf newRows : Matrix) (std : ℕ → ℚ)
    (hdvd : hop ∣ frameLengthSpectra)
    (hpos : 0 < hop)
    (hbuf : buf.length = frameLengthSpectra)
    (hnew : newRows.length = hop)
    (hbufw : ∀ row ∈ buf, row.length = numMelBins)
    (hneww : ∀ row ∈ newRows, row.length = numMelBins)
    (hstd : ∀ j < numMelBins, 0 ≤ std j ∧
      std j ^ 2 = colVariance (centeredMatrix (buf.drop hop ++ newRows)) j ∧ std j ≠ 0) :
    (getNextSpectrogram ⟨hop, buf⟩ newRows std).1.length = frameLengthSpectra ∧
    (∀ row ∈ (getNextSpectrogram ⟨hop, buf⟩ newRows std).1, row.length = numMelBins) ∧
    (∀ row ∈ (getNextSpectrogram ⟨hop, buf⟩ newRows std).1, ∀ v ∈ row, v ≤ 255) ∧
    (∀ i < frameLengthSpectra, ∀ j < numMelBins,
      (((getNextSpectrogram ⟨hop, buf⟩ newRows std).1.getD i []).getD j 0 : ℕ) =
        toUint8 (((((buf.drop hop ++ newRows).getD i []).getD j 0 -
            colMean (buf.drop hop ++ newRows) j) / (normFactor * std j) + 1) * (255 / 2))) ∧
    (getNextSpectrogram ⟨hop, buf⟩ newRows std).2.spectrogram = buf.drop hop ++ newRows := by
  have hle : hop ≤ frameLengthSpectra := Nat.le_of_dvd (by norm_num [frameLengthSpectra]) hdvd
  set S := buf.drop hop ++ newRows with hS
  have hSlen : S.length = frameLengthSpectra := by
    simp [hS, hbuf, hnew]
    omega
  have hSw : ∀ row ∈ S, row.length = numMelBins := by
    intro row hrow
    rcases List.mem_append.mp hrow with h | h
    · exact hbufw row (List.mem_of_mem_drop h)
    · exact hneww row h
  have hres : (getNextSpectrogram ⟨hop, buf⟩ newRows std).1 = normalizeQuantize S std := rfl
  refine ⟨?_, ?_, ?_, ?_, rfl⟩
  · rw [hres, normalizeQuantize_length, hSlen]
  · intro row hrow
    rw [hres] at hrow
    obtain ⟨r, hr, hlen, -⟩ := normalizeQuantize_mem S std row hrow
    rw [hlen]
    exact hSw r hr
  · intro row hrow v hv
    rw [hres] at hrow
    obtain ⟨r, -, -, hvals⟩ := normalizeQuantize_mem S std row hrow
    obtain ⟨x, rfl⟩ := hvals v hv
    exact toUint8_le x
  · intro i hi j hj
    rw [hres]
    have hiS : i < S.length := by omega
    have hrowi : S[i]? = some (S.getD i []) := by
      rw [List.getElem?_eq_getElem hiS, List.getD_eq_getElem?_getD,
        List.getElem?_eq_getElem hiS]
      rfl
    have hjrow : j < (S.getD i []).length := by
      rw [hSw (S.getD i []) ?_]
      · exact hj
      · rw [List.getD_eq_getElem?_getD, List.getElem?_eq_getElem hiS]
        exact List.getElem_mem hiS
    rw [List.getD_eq_getElem?_getD (normalizeQuantize S std) i [],
      normalizeQuantize_getElem?, hrowi]
    simp only [Option.map_some', Option.getD_some]
    have hj1 : j < ((S.getD i []).mapIdx (fun j x => x - colMean S j)).length := by
      rw [List.length_mapIdx]
      exact hjrow
    have hj2 : j < (((S.getD i []).mapIdx (fun j x => x - colMean S j)).mapIdx
        (fun j y => (y / (normFactor * std j) + 1) * (255 / 2))).length := by
      rw [List.length_mapIdx]
      exact hj1
    rw [List.getD_eq_getElem?_getD, List.getElem?_map,
      List.getElem?_eq_getElem hj2]
    simp only [Option.map_some', Option.getD_some]
    rw [List.getElem_mapIdx, List.getElem_mapIdx]
    rw [List.getD_eq_getElem?_getD (S.getD i []) j 0, List.getElem?_eq_getElem hjrow,
      Option.getD_some]

lemma getD_replicate_lt {α : Type} (n j : ℕ) (x d : α) (h : j < n) :
    (List.replicate n x).getD j d = x := by
  rw [List.getD_eq_getElem?_getD, List.getElem?_replicate, if_pos h, Option.getD_some]

lemma getD_mapIdx_lt (f : ℕ → ℚ → ℚ) (l : List ℚ) (j : ℕ) (h : j < l.length) (d : ℚ) :
    (l.mapIdx f).getD j d = f j (l.getD j 0) := by
  have h' : j < (l.mapIdx f).length := by rw [List.length_mapIdx]; exact h
  rw [List.getD_eq_getElem?_getD, List.getElem?_eq_getElem h', Option.getD_some,
    List.getElem_mapIdx, List.getD_eq_getElem?_getD, List.getElem?_eq_getElem h,
    Option.getD_some]

/-- An alternating test frame: rows of 0s and 2s, so every mel-bin
column has mean 1 and population variance exactly 1 — a rational
standard deviation. -/
def altRow (i : ℕ) : ℚ := if i % 2 = 0 then 0 else 2

lemma alt_pair_sum (g : ℕ → ℚ) (c : ℚ) (h : ∀ k, g (2 * k) + g (2 * k + 1) = c) :
    ∀ m : ℕ, ((List.range (2 * m)).map g).sum = m * c := by
  intro m
  induction m with
  | zero => simp
  | succ m ih =>
      have h1 : 2 * (m + 1) = (2 * m + 1) + 1 := by ring
      rw [h1, List.range_succ, List.range_succ, List.map_append, List.map_append,
        List.sum_append, List.sum_append]
      simp only [List.map_cons, List.map_nil, List.sum_cons, List.sum_nil]
      rw [ih]
      have := h m
      push_cast
      linarith

lemma altRow_pair (k : ℕ) : altRow (2 * k) = 0 ∧ altRow (2 * k + 1) = 2 := by
  constructor
  · simp [altRow, Nat.mul_mod_right]
  · have h2 : (2 * k + 1) % 2 = 1 := by omega
    simp [altRow, h2]

def altMatrix : Matrix :=
  (List.range frameLengthSpectra).map (fun i => List.replicate numMelBins (altRow i))

lemma altMatrix_colList (j : ℕ) (hj : j < numMelBins) :
    colList altMatrix j = (List.range frameLengthSpectra).map altRow := by
  unfold colList altMatrix
  rw [List.map_map]
  apply List.map_congr_left
  intro i _
  simp only [Function.comp]
  exact getD_replicate_lt _ _ _ _ hj

lemma altMatrix_colMean (j : ℕ) (hj : j < numMelBins) : colMean altMatrix j = 1 := by
  unfold colMean
  rw [altMatrix_colList j hj]
  have hsum : ((List.range frameLengthSpectra).map altRow).sum = 198 := by
    rw [show frameLengthSpectra = 2 * 99 from rfl,
      alt_pair_sum altRow 2 (fun k => by rw [(altRow_pair k).1, (altRow_pair k).2]; ring)]
    norm_num
  have hlen : altMatrix.length = frameLengthSpectra := by simp [altMatrix]
  rw [hsum, hlen]
  norm_num [frameLengthSpectra]

lemma centered_alt_colList (j : ℕ) (hj : j < numMelBins) :
    colList (centeredMatrix altMatrix) j =
      (List.range frameLengthSpectra).map (fun i => altRow i - 1) := by
  unfold colList centeredMatrix
  rw [List.map_map]
  unfold altMatrix
  rw [List.map_map]
  apply List.map_congr_left
  intro i _
  simp only [Function.comp]
  rw [getD_mapIdx_lt _ _ _ (by simpa using hj) 0, getD_replicate_lt _ _ _ _ hj]
  rw [show colMean ((List.range frameLengthSpectra).map
    (fun i => List.replicate numMelBins (altRow i))) j = 1 from altMatrix_colMean j hj]

lemma alt_variance (j : ℕ) (hj : j < numMelBins) :
    colVariance (centeredMatrix altMatrix) j = 1 := by
  have hlen : (centeredMatrix altMatrix).length = frameLengthSpectra := by
    simp [centeredMatrix, altMatrix]
  have hmean : colMean (centeredMatrix altMatrix) j = 0 := by
    unfold colMean
    rw [centered_alt_colList j hj, hlen]
    have hsum : ((List.range frameLengthSpectra).map (fun i => altRow i - 1)).sum = 0 := by
      rw [show frameLengthSpectra = 2 * 99 from rfl,
        alt_pair_sum (fun i => altRow i - 1) 0
          (fun k => by simp only [(altRow_pair k).1, (altRow_pair k).2]; ring)]
      ring
    rw [hsum]
    norm_num
  unfold colVariance
  rw [centered_alt_colList j hj, hlen, hmean]
  have hsq : (((List.range frameLengthSpectra).map (fun i => altRow i - 1)).map
      (fun x => (x - 0) ^ 2)).sum = 198 := by
    rw [List.map_map]
    rw [show frameLengthSpectra = 2 * 99 from rfl,
      alt_pair_sum _ 2
        (fun k => by
          simp only [Function.comp, (altRow_pair k).1, (altRow_pair k).2]
          ring)]
    norm_num
  rw [hsq]
  norm_num [frameLengthSpectra]

/-- Closed instance of `get_next_spectrogram_spec`: hop 198 (which
divides 198) with the alternating frame, whose columns have standard
deviation exactly 1. -/
theorem get_next_spectrogram_spec_witness :
    (getNextSpectrogram ⟨198, List.replicate 198 (List.replicate 32 (0 : ℚ))⟩
        altMatrix (fun _ => 1)).1.length = frameLengthSpectra ∧
    (∀ row ∈ (getNextSpectrogram ⟨198, List.replicate 198 (List.replicate 32 (0 : ℚ))⟩
        altMatrix (fun _ => 1)).1, row.length = numMelBins) ∧
    (∀ row ∈ (getNextSpectrogram ⟨198, List.replicate 198 (List.replicate 32 (0 : ℚ))⟩
        altMatrix (fun _ => 1)).1, ∀ v ∈ row, v ≤ 255) := by
  have hdrop : (List.replicate 198 (List.replicate 32 (0 : ℚ))).drop 198 ++ altMatrix =
      altMatrix := by
    rw [List.drop_eq_nil_of_le (by rw [List.length_replicate]), List.nil_append]
  have h := get_next_spectrogram_spec 198 (List.replicate 198 (List.replicate 32 (0 : ℚ)))
    altMatrix (fun _ => 1)
    (by decide) (by decide)
    (by rw [List.length_replicate]; decide)
    (by simp only [altMatrix, List.length_map, List.length_range]; decide)
    (by intro row hrow
        rw [List.eq_of_mem_replicate hrow, List.length_replicate]
        decide)
    (by intro row hrow
        obtain ⟨i, -, rfl⟩ := List.mem_map.mp hrow
        rw [List.length_replicate])
    (by intro j hj
        refine ⟨by norm_num, ?_, by norm_num⟩
        rw [hdrop, alt_variance j hj]
        norm_num)
  exact ⟨h.1, h.2.1, h.2.2.1⟩

/-! ## C7: zero standard deviation -/

/-- Claim **C7.**  With an all-constant rolling frame (every centered entry
0, every column standard deviation exactly 0 — `np.std` of a constant
column is exactly `0.0`), the normalization of `get_next_spectrogram`
divides `0.0` by `norm_factor * 0.0 = 0.0`.  In IEEE/numpy semantics
this is `0/0 = NaN` (a `RuntimeWarning`, not a raised error), the NaN
propagates through `+ 1`, `* 127.5`, `np.minimum(255, ·)` and
`np.maximum(0, ·)` — so no clipping takes place — and the value
handed to `.astype(np.uint8)` is NaN, whose conversion is undefined
(platform-dependent), not a handled no-op divisor.  First two
conjuncts: in the exact rational model the centered entry and the
column variance of the all-zero frame are 0, so the IEEE inputs are
`0/0`.  Third: the value reaching the cast is NaN.  Fourth: the
handling the claim describes (a no-op divisor) would instead produce
the genuine clipped value 127.5. -/
theorem zero_std_normalization_nan :
    colMean (List.replicate frameLengthSpectra (List.replicate numMelBins (0 : ℚ))) 0 = 0 ∧
    colVariance (centeredMatrix
      (List.replicate frameLengthSpectra (List.replicate numMelBins (0 : ℚ)))) 0 = 0 ∧
    normalizePreCast (FVal.val 0) (FVal.val 0) = FVal.nan ∧
    FVal.max0 (FVal.min255 (FVal.mul (FVal.add (FVal.val 0) (FVal.val 1))
      (FVal.val (255 / 2)))) = FVal.val (255 / 2) := by
  have hmean : colMean (List.replicate frameLengthSpectra
      (List.replicate numMelBins (0 : ℚ))) 0 = 0 := by
    unfold colMean colList
    rw [List.map_replicate, getD_replicate_lt _ _ _ _ (by norm_num [numMelBins]),
      List.sum_replicate]
    simp
  refine ⟨hmean, ?_, ?_, ?_⟩
  · have hcol : colList (centeredMatrix (List.replicate frameLengthSpectra
        (List.replicate numMelBins (0 : ℚ)))) 0 = List.replicate frameLengthSpectra 0 := by
      unfold centeredMatrix colList
      rw [List.map_replicate, List.map_replicate]
      congr 1
      rw [getD_mapIdx_lt _ _ _ (by rw [List.length_replicate]; norm_num [numMelBins]) 0,
        getD_replicate_lt _ _ _ _ (by norm_num [numMelBins]), hmean]
      norm_num
    have hmean' : colMean (centeredMatrix (List.replicate frameLengthSpectra
        (List.replicate numMelBins (0 : ℚ)))) 0 = 0 := by
      unfold colMean
      rw [hcol, List.sum_replicate]
      simp
    unfold colVariance
    rw [hcol, hmean']
    simp
  · simp [normalizePreCast, FVal.mul, FVal.div, FVal.add, FVal.min255, FVal.max0, normFactor]
  · have h1 : ((0 : ℚ) + 1) * (255 / 2) = 255 / 2 := by norm_num
    simp only [FVal.add, FVal.mul, FVal.min255, FVal.max0, h1]
    congr 1
    rw [min_eq_right (by norm_num), max_eq_right (by norm_num)]

/-! ## C8: overlap carry and window continuity -/

lemma deliveredSamples_ge (ds p : ℕ) (hds : 1 ≤ ds) : p ≤ deliveredSamples ds p := by
  simp only [deliveredSamples, numAudioChunks, framesPerChunk]
  rw [Nat.le_div_iff_mul_le (by omega : 0 < ds)]
  split <;> omega

lemma windowStarts_append (a m : ℕ) :
    windowStarts a m ++ windowStarts (a + m * 160) m = windowStarts a (2 * m) := by
  unfold windowStarts
  rw [two_mul, List.range_add, List.map_append, List.map_map]
  congr 1
  apply List.map_congr_left
  intro i _
  simp only [Function.comp]
  ring

/-- Counterexample to **C8** as stated.  At the default configuration
(`num_frames_hop = 33`, output rate 16000, downsample 1), the carried
tail after the first `_get_next_spectra` call holds 863 samples, not
the claimed `(windowLen − hopLen) × rate = 240`: the code keeps
`audio_samples[required − underlap:]`, which also contains the
chunk-granularity excess `get_audio` over-delivered.  Moreover
`required` itself is computed in double arithmetic as 5521 — one more
than the exact-arithmetic 5520 — so consecutive calls' analysis
segments are offset by 5281 samples instead of the exact hop grid
`33 × 160 = 5280`: the window grid of the second call is one sample
late (a one-sample gap at every call boundary). -/
theorem overlap_tail_counterexample :
    requiredNumSamples 16000 33 = 5521 ∧
    underlapSamples 16000 = 240 ∧
    (nextSpectraStep 16000 1 33 ⟨0, 0⟩).bufLen = 863 ∧
    (863 : ℕ) ≠ 240 ∧
    segStart (nextSpectraStep 16000 1 33 ⟨0, 0⟩) = 5281 ∧
    (5281 : ℕ) ≠ 33 * 160 ∧
    windowStarts 0 33 ++ windowStarts 5281 33 ≠ windowStarts 0 66 := by
  refine ⟨by decide, by decide, by decide, by decide, by decide, by decide, by decide⟩

/-- Claim **C8 (amended).**  Across consecutive `_get_next_spectra` calls
the extractor carries, as overlap tail, every sample of the
concatenated audio from offset `required − underlap` on — that is, the
trailing `underlap = int((windowLen − hopLen) × rate)` samples of the
analysed prefix plus whatever chunk-granularity excess the recorder
over-delivered — and prepends it to the next pull.  Consecutive
analysis segments are therefore offset by exactly
`required − underlap` samples, and the two calls' analysis windows
form one continuous gap- and duplicate-free hop grid exactly when
`required` equals the exact grid value `underlap + n × hopSamples`
(true e.g. for `num_frames_hop = 11`; false for the default 33, where
double rounding adds one sample — see
`overlap_tail_counterexample`). -/
theorem overlap_continuity (ds n : ℕ) (s : ExtractorStream)
    (hds : 1 ≤ ds)
    (hcur : s.bufLen ≤ s.cursor)
    (hbuf : s.bufLen ≤ requiredNumSamples 16000 n)
    (hund : underlapSamples 16000 ≤ requiredNumSamples 16000 n) :
    segStart (nextSpectraStep 16000 ds n s) =
      segStart s + (requiredNumSamples 16000 n - underlapSamples 16000) ∧
    (nextSpectraStep 16000 ds n s).bufLen =
      underlapSamples 16000 +
        (deliveredSamples ds (requiredNumSamples 16000 n - s.bufLen) -
          (requiredNumSamples 16000 n - s.bufLen)) ∧
    (requiredNumSamples 16000 n = underlapSamples 16000 + n * 160 →
      windowStarts (segStart s) n ++
          windowStarts (segStart (nextSpectraStep 16000 ds n s)) n =
        windowStarts (segStart s) (2 * n)) := by
  have hdel := deliveredSamples_ge ds (requiredNumSamples 16000 n - s.bufLen) hds
  have hseg : segStart (nextSpectraStep 16000 ds n s) =
      segStart s + (requiredNumSamples 16000 n - underlapSamples 16000) := by
    simp only [nextSpectraStep, segStart]
    omega
  have hlen : (nextSpectraStep 16000 ds n s).bufLen =
      underlapSamples 16000 +
        (deliveredSamples ds (requiredNumSamples 16000 n - s.bufLen) -
          (requiredNumSamples 16000 n - s.bufLen)) := by
    simp only [nextSpectraStep]
    omega
  refine ⟨hseg, hlen, ?_⟩
  intro hexact
  rw [hseg, hexact]
  have harith : segStart s + (underlapSamples 16000 + n * 160 - underlapSamples 16000) =
      segStart s + n * 160 := by omega
  rw [harith]
  exact windowStarts_append (segStart s) n

/-- Closed instance of `overlap_continuity`: at `num_frames_hop = 11`
the double-arithmetic `required` is the exact 2000, and the two calls'
windows form the single continuous grid of 22 window starts. -/
theorem overlap_continuity_witness :
    requiredNumSamples 16000 11 = underlapSamples 16000 + 11 * 160 ∧
    windowStarts 0 11 ++ windowStarts (segStart (nextSpectraStep 16000 1 11 ⟨0, 0⟩)) 11 =
      windowStarts 0 22 := by
  have h := overlap_continuity 1 11 ⟨0, 0⟩ (by decide) (by decide) (by decide) (by decide)
  refine ⟨by decide, ?_⟩
  have h2 := h.2.2 (by decide)
  simpa using h2

/-! ## C9: command-table confidence parsing -/

/-- Claim **C9.**  A command-table record `label,key,confidence` gets the
default threshold 0.4 when the confidence field is empty (the line
`"left,KEY_LEFT,"` yields threshold 0.4 for label `"left"`), and falls
back to 0.4 when the field parses to a float outside `[0, 1]`. -/
theorem read_commands_confidence :
    readCommands ["left,KEY_LEFT,\n"] =
      some [("left", { key := "KEY_LEFT", conf := 4 / 10 })] ∧
    (∀ key : String, readCommandFields key "" =
      some { key := key, conf := 4 / 10 }) ∧
    (∀ (key conf : String) (v : ℚ), parseDecimal conf = some v → (v < 0 ∨ 1 < v) →
      readCommandFields key conf = some { key := key, conf := 4 / 10 }) := by
  refine ⟨rfl, ?_, ?_⟩
  · intro key
    rw [readCommandFields, if_neg (by simp)]
  · intro key conf v hp hrange
    have hne : conf ≠ "" := by
      intro hc
      rw [hc] at hp
      simp [parseDecimal, splitOnChar, digitsVal] at hp
    have hcond : ¬ (0 ≤ v ∧ v ≤ 1) := by
      intro hin
      rcases hrange with h | h
      · linarith [hin.1]
      · linarith [hin.2]
    rw [readCommandFields, if_pos hne, hp]
    show some ({ key := key, conf := if 0 ≤ v ∧ v ≤ 1 then v else 4 / 10 } : Command) =
      some { key := key, conf := 4 / 10 }
    rw [if_neg hcond]

/-- Closed instance of `read_commands_confidence`: the confidence
field `"1.5"` parses to `3/2 > 1` and falls back to 0.4. -/
theorem read_commands_confidence_witness :
    parseDecimal "1.5" = some (3 / 2) ∧
    ((3 : ℚ) / 2 < 0 ∨ 1 < (3 : ℚ) / 2) ∧
    readCommandFields "KEY_LEFT" "1.5" =
      some { key := "KEY_LEFT", conf := 4 / 10 } := by
  have hp : parseDecimal "1.5" = some (3 / 2) := by
    norm_num +decide [parseDecimal, splitOnChar, digitsVal,
      show ('1').toNat = 49 from by decide, show ('5').toNat = 53 from by decide,
      show ('0').toNat = 48 from by decide]
  exact ⟨hp, Or.inr (by norm_num),
    read_commands_confidence.2.2 "KEY_LEFT" "1.5" (3 / 2) hp (Or.inr (by norm_num))⟩

/-! ## C1: debounce dispatch sequence -/

/-- Claim **C1**, evaluated at its failing input.  With the label table
`[negative, A, B]` and both `A` and `B` commanded, the per-frame
candidate sequence `[A, A, A, B, B, −, A]` (indices
`[1, 1, 1, 2, 2, -1, 1]`) dispatches `[KA, KB, KB, KA]`, not the
claimed `[KA, KB, KA]`: at the no-detection frame the loop evaluates
`labels[detection]` with the sentinel `detection = -1`, which in
Python indexes the *last* label `B`; since `B` is commanded and
`-1 ≠ 0`, `KB` is re-dispatched.  Third conjunct: with one more
non-commanded trailing label `C`, the very same candidate sequence
produces exactly the claimed `[KA, KB, KA]` — the spurious dispatch is
the only deviation. -/
theorem debounce_dispatch_failing :
    (runDispatch ["negative", "A", "B"]
        [("A", { key := "KA", conf := 2 / 5 }), ("B", { key := "KB", conf := 2 / 5 })]
        (-1) [1, 1, 1, 2, 2, -1, 1]).1 = ["KA", "KB", "KB", "KA"] ∧
    (["KA", "KB", "KB", "KA"] : List String) ≠ ["KA", "KB", "KA"] ∧
    (runDispatch ["negative", "A", "B", "C"]
        [("A", { key := "KA", conf := 2 / 5 }), ("B", { key := "KB", conf := 2 / 5 })]
        (-1) [1, 1, 1, 2, 2, -1, 1]).1 = ["KA", "KB", "KA"] := by
  refine ⟨by decide, by decide, by decide⟩

/-! ## C2: negative-dominated frames -/

/-- Claim **C2**, evaluated at its failing input.  First conjunct: the
scenario of the claim — score vector `[0.9, 0.04, 0.03, 0.03]` with
`negative_threshold = 0.6` produces no detection (`-1`), since
`result[0] ≥ threshold` short-circuits the candidate scan.  Second:
the loop state `last_detection = 3` is reachable — a prior frame
scoring `[0.1, 0.2, 0.1, 0.8]` detects and dispatches `left`
(index 3, the final label).  Third: on the negative-dominated frame in
that state the loop nevertheless dispatches `KEY_LEFT` again —
`labels[-1]` resolves to the final label `left`, which is commanded,
and `-1` differs from the reset state `0` — contradicting "dispatches
nothing". -/
theorem negative_threshold_dispatch_failing :
    candidateDetection (6 / 10) ["negative", "go", "stop", "left"]
      [("left", { key := "KEY_LEFT", conf := 2 / 5 })]
      [9 / 10, 4 / 100, 3 / 100, 3 / 100] = -1 ∧
    frameStep (6 / 10) ["negative", "go", "stop", "left"]
      [("left", { key := "KEY_LEFT", conf := 2 / 5 })]
      (-1) [1 / 10, 2 / 10, 1 / 10, 8 / 10] = (some "KEY_LEFT", 3) ∧
    frameStep (6 / 10) ["negative", "go", "stop", "left"]
      [("left", { key := "KEY_LEFT", conf := 2 / 5 })]
      3 [9 / 10, 4 / 100, 3 / 100, 3 / 100] = (some "KEY_LEFT", -1) := by
  refine ⟨?_, ?_, ?_⟩
  · rw [candidateDetection, if_neg (by norm_num)]
  · have hsort : argsortDesc [1 / 10, 2 / 10, 1 / 10, 8 / 10] = [3, 1, 0, 2] := by
      rw [argsortDesc,
        show List.range (([1 / 10, 2 / 10, 1 / 10, 8 / 10] : List ℚ).length) = [0, 1, 2, 3]
          from by decide]
      norm_num [insertDesc, List.getD_cons_succ, List.getD_cons_zero]
    rw [frameStep, candidateDetection, if_pos (by norm_num), hsort]
    norm_num +decide [detectionStep, lookupCmd, dispatchStep, pyGet,
      List.getD_cons_succ, List.getD_cons_zero]
  · rw [frameStep, candidateDetection, if_neg (by norm_num)]
    norm_num +decide [dispatchStep, pyGet, lookupCmd]

/-! ## C10: the reserved negative index is never the candidate -/

lemma detectionStep_ne_zero (labels : List String) (commands : List (String × Command))
    (result : List ℚ) (acc : ℤ) (i : ℕ) (h : acc ≠ 0) :
    detectionStep labels commands result acc i ≠ 0 := by
  unfold detectionStep
  cases hget : labels.get? i with
  | none => exact h
  | some label =>
      show ((match lookupCmd label commands with
        | none => acc
        | some c => if i ≠ 0 ∧ c.conf < result.getD i 0 ∧ acc < 0 then (i : ℤ) else acc) : ℤ) ≠ 0
      cases hlook : lookupCmd label commands with
      | none => exact h
      | some c =>
          show (if i ≠ 0 ∧ c.conf < result.getD i 0 ∧ acc < 0 then (i : ℤ) else acc) ≠ 0
          by_cases hcond : i ≠ 0 ∧ c.conf < result.getD i 0 ∧ acc < 0
          · rw [if_pos hcond]
            exact_mod_cast hcond.1
          · rw [if_neg hcond]
            exact h

lemma detectionFold_ne_zero (labels : List String) (commands : List (String × Command))
    (result : List ℚ) :
    ∀ (l : List ℕ) (acc : ℤ), acc ≠ 0 →
      l.foldl (detectionStep labels commands result) acc ≠ 0 := by
  intro l
  induction l with
  | nil => exact fun acc h => h
  | cons i is ih =>
      intro acc h
      rw [List.foldl_cons]
      exact ih _ (detectionStep_ne_zero labels commands result acc i h)

lemma dispatchStep_dispatch_ne_zero (labels : List String)
    (commands : List (String × Command)) (last det : ℤ) (hdet : det ≠ 0) :
    ∀ k, (dispatchStep labels commands last det).1 = some k →
      (dispatchStep labels commands last det).2 ≠ 0 := by
  intro k hk
  have hk1 : (match pyGet labels det with
      | none => ((none : Option String), if det < 0 ∧ 0 < last then 0 else last)
      | some label =>
          match lookupCmd label commands with
          | none => ((none : Option String), if det < 0 ∧ 0 < last then 0 else last)
          | some c =>
              if det ≠ (if det < 0 ∧ 0 < last then 0 else last) then (some c.key, det)
              else ((none : Option String), if det < 0 ∧ 0 < last then 0 else last)).1 =
      some k := hk
  show ((match pyGet labels det with
      | none => ((none : Option String), if det < 0 ∧ 0 < last then 0 else last)
      | some label =>
          match lookupCmd label commands with
          | none => ((none : Option String), if det < 0 ∧ 0 < last then 0 else last)
          | some c =>
              if det ≠ (if det < 0 ∧ 0 < last then 0 else last) then (some c.key, det)
              else ((none : Option String), if det < 0 ∧ 0 < last then 0 else last)).2 : ℤ) ≠ 0
  cases hp : pyGet labels det with
  | none =>
      rw [hp] at hk1
      simp at hk1
  | some label =>
      rw [hp] at hk1
      have hk2 : (match lookupCmd label commands with
          | none => ((none : Option String), if det < 0 ∧ 0 < last then 0 else last)
          | some c =>
              if det ≠ (if det < 0 ∧ 0 < last then 0 else last) then (some c.key, det)
              else ((none : Option String), if det < 0 ∧ 0 < last then 0 else last)).1 =
          some k := hk1
      show ((match lookupCmd label commands with
          | none => ((none : Option String), if det < 0 ∧ 0 < last then 0 else last)
          | some c =>
              if det ≠ (if det < 0 ∧ 0 < last then 0 else last) then (some c.key, det)
              else ((none : Option String), if det < 0 ∧ 0 < last then 0 else last)).2 : ℤ) ≠ 0
      cases hl : lookupCmd label commands with
      | none =>
          rw [hl] at hk2
          simp at hk2
      | some c =>
          rw [hl] at hk2
          have hk3 : ((if det ≠ (if det < 0 ∧ 0 < last then 0 else last)
              then (some c.key, det)
              else ((none : Option String), if det < 0 ∧ 0 < last then 0 else last)).1) =
              some k := hk2
          show (((if det ≠ (if det < 0 ∧ 0 < last then 0 else last)
              then (some c.key, det)
              else ((none : Option String), if det < 0 ∧ 0 < last then 0 else last)).2 : ℤ)) ≠ 0
          by_cases hcase : det ≠ if det < 0 ∧ 0 < last then 0 else last
          · rw [if_pos hcase]
            exact hdet
          · rw [if_neg hcase] at hk3
            simp at hk3

/-- Claim **C10.**  The reserved negative label at ranked index 0 can never
become the candidate detection — the `if top3[p]` truthiness filter
requires a nonzero index, so the scan's result is `-1` or a positive
index, for every score vector, label table, command table and
threshold, even if the index-0 label appears in the command table with
a passing score.  Consequently, whenever the frame dispatches a
trigger key, the detection index it records is never 0. -/
theorem negative_index_never_candidate (negThr : ℚ) (labels : List String)
    (commands : List (String × Command)) (result : List ℚ) (last : ℤ) :
    candidateDetection negThr labels commands result ≠ 0 ∧
    ∀ k, (frameStep negThr labels commands last result).1 = some k →
      (frameStep negThr labels commands last result).2 ≠ 0 := by
  have hcand : candidateDetection negThr labels commands result ≠ 0 := by
    unfold candidateDetection
    split
    · exact detectionFold_ne_zero labels commands result _ (-1) (by decide)
    · decide
  exact ⟨hcand, fun k hk =>
    dispatchStep_dispatch_ne_zero labels commands last _ hcand k hk⟩

/-- Closed instance of `negative_index_never_candidate`: a frame that
does dispatch (`left` at index 1 beats its threshold) records the
nonzero index 1. -/
theorem negative_index_never_candidate_witness :
    candidateDetection (6 / 10) ["negative", "left", "x"]
      [("left", { key := "KEY_LEFT", conf := 2 / 5 })] [1 / 10, 7 / 10, 1 / 20] ≠ 0 ∧
    (frameStep (6 / 10) ["negative", "left", "x"]
      [("left", { key := "KEY_LEFT", conf := 2 / 5 })]
      (-1) [1 / 10, 7 / 10, 1 / 20]).1 = some "KEY_LEFT" ∧
    (frameStep (6 / 10) ["negative", "left", "x"]
      [("left", { key := "KEY_LEFT", conf := 2 / 5 })]
      (-1) [1 / 10, 7 / 10, 1 / 20]).2 ≠ 0 := by
  have heval : frameStep (6 / 10) ["negative", "left", "x"]
      [("left", { key := "KEY_LEFT", conf := 2 / 5 })]
      (-1) [1 / 10, 7 / 10, 1 / 20] = (some "KEY_LEFT", 1) := by
    have hsort : argsortDesc [1 / 10, 7 / 10, 1 / 20] = [1, 0, 2] := by
      rw [argsortDesc,
        show List.range (([1 / 10, 7 / 10, 1 / 20] : List ℚ).length) = [0, 1, 2]
          from by decide]
      norm_num [insertDesc, List.getD_cons_succ, List.getD_cons_zero]
    rw [frameStep, candidateDetection, if_pos (by norm_num), hsort]
    norm_num +decide [detectionStep, lookupCmd, dispatchStep, pyGet,
      List.getD_cons_succ, List.getD_cons_zero]
  have h := negative_index_never_candidate (6 / 10) ["negative", "left", "x"]
    [("left", { key := "KEY_LEFT", conf := 2 / 5 })] [1 / 10, 7 / 10, 1 / 20] (-1)
  exact ⟨h.1, by rw [heval], h.2 "KEY_LEFT" (by rw [heval])⟩

end KeywordSpotter
